import Mathlib

/-!
Verification development for the pcbdl KiCad netlist importer
(`pcbdl/kicad.py`).  The definitions below are a shallow embedding of the
importer: the s-expression index `_Better_sexp`, the pin-name tokenizer
`PIN_SPLITTER_RE.findall`, the template extractor
`_read_kicad_netlist_partcls`, and the loader `read_kicad_netlist`.

The host circuit-graph collaborator (`Part`, `Pin`, `Net` from
`pcbdl/base.py`, and the two-terminal behaviors `R`, `C` from
`pcbdl/small_parts.py`) is not part of the importer source; where its
behavior matters it is modelled from the spec, as noted on each
definition.
-/

namespace Pcbdl

/-! ### Tagged s-expression trees and the `_Better_sexp` index

An s-expression tree: atoms (symbols, strings, numbers — the index only
ever compares an atom's `.value()` against a string key, so atoms carry a
single string) and nested lists.  `_Better_sexp` wraps a list and adds
name-keyed lookup. -/

inductive Sexp where
  | atom : String → Sexp
  | list : List Sexp → Sexp

/-- Errors the Python index can raise while scanning children:
`item[0]` on an empty list raises IndexError, and `.value()` on a
nested-list head raises AttributeError (no such method on the wrapper). -/
inductive SexpScanError where
  | indexError
  | attributeError
deriving DecidableEq, Repr

/-- Result of `_Better_sexp.__getitem__` with a string key. -/
inductive GetItemError where
  | keyNotFound (key : String)
  | ambiguous (key : String)
  | scanError (e : SexpScanError)
deriving DecidableEq, Repr

/-- One step of `find_all_iter`'s filter: does this immediate child match
the key?  Mirrors `if not isinstance(item, _Better_sexp): continue` and
`if item[0].value() == key` (which can raise on malformed children). -/
def matchesKey (key : String) : Sexp → Except SexpScanError Bool
  | .atom _ => .ok false
  | .list [] => .error .indexError
  | .list (.atom t :: _) => .ok (t = key)
  | .list (.list _ :: _) => .error .attributeError

/-- A well-formed immediate child for the scan: an atom, or a list whose
head is an atom.  On such children `matchesKey` never errors. -/
def childOk : Sexp → Bool
  | .atom _ => true
  | .list [] => false
  | .list (.atom _ :: _) => true
  | .list (.list _ :: _) => false

/-- Boolean match test, meaningful on well-formed children. -/
def matchesKeyB (key : String) : Sexp → Bool
  | .list (.atom t :: _) => t = key
  | _ => false

/-- `_Better_sexp.find_all` (the eager tuple of `find_all_iter`):
all immediate children that are lists tagged by `key`. -/
def find_all (key : String) : List Sexp → Except SexpScanError (List Sexp)
  | [] => .ok []
  | item :: rest => do
      let b ← matchesKey key item
      let r ← find_all key rest
      .ok (if b then item :: r else r)

/-- `_Better_sexp.__getitem__` with a string key: pull the first match
from the iterator (KeyError if none), then check there is no second match
(KeyError "More than one ..." if there is).  The generator is lazy, so
children after a second match are never scanned; `found` records whether
a first match is in hand. -/
def getItemAux (key : String) : List Sexp → Option Sexp → Except GetItemError Sexp
  | [], none => .error (.keyNotFound key)
  | [], some x => .ok x
  | item :: rest, found =>
      match matchesKey key item with
      | .error e => .error (.scanError e)
      | .ok true =>
          match found with
          | none => getItemAux key rest (some item)
          | some _ => .error (.ambiguous key)
      | .ok false => getItemAux key rest found

def getItem (key : String) (items : List Sexp) : Except GetItemError Sexp :=
  getItemAux key items none

/-! ### Pin-name tokenizer

`PIN_SPLITTER_RE = re.compile("[^\\(\\)/\\s,]+")`; `findall` returns the
maximal runs of non-delimiter characters.  Delimiters are `(`, `)`, `/`,
`,` and whitespace (Python `\s`: space, tab, newline, carriage return,
form feed, vertical tab). -/

def isPinDelim (c : Char) : Bool :=
  c = '(' || c = ')' || c = '/' || c = ',' ||
  c = ' ' || c = '\t' || c = '\n' || c = '\r' || c = '\x0b' || c = '\x0c'

/-- Accumulator-style scan producing the runs of non-delimiter
characters, in order.  `acc` holds the current run, reversed; a delimiter
closes the run (emitting it when non-empty). -/
def pinSplitAux : List Char → List Char → List (List Char)
  | [], acc => if acc.isEmpty then [] else [acc.reverse]
  | c :: cs, acc =>
      if isPinDelim c then
        (if acc.isEmpty then [] else [acc.reverse]) ++ pinSplitAux cs []
      else
        pinSplitAux cs (c :: acc)

/-- `PIN_SPLITTER_RE.findall(s)`. -/
def pinSplit (s : String) : List String :=
  (pinSplitAux s.data []).map List.asString

/-! ### Data model

`Pin(numbers, names)` is the host collaborator's pin.  Modelled from the
spec: a pin definition carries an ordered set of physical pin-number
tokens and an ordered set of name-alias tokens. -/

structure PinDef where
  numbers : List String
  names : List String
deriving DecidableEq, Repr

/-- Raw `pin` entry of a libpart: `num`, `name`, `type`, each read with a
unique-by-tag lookup. -/
structure RawPin where
  num : String
  name : String
  ptype : String
deriving DecidableEq, Repr

/-- Structured `libpart` entry: `lib`, `part`, `description`, the
`fields` name/value pairs (in file order, as read by `_read_fields`), and
the `pins` list. -/
structure Libpart where
  lib : String
  part : String
  description : String
  fields : List (String × String)
  pins : List RawPin
deriving DecidableEq, Repr

/-- Structured `comp` entry of the `components` section: `ref`, `value`,
optional `footprint`, and the `libsource`'s `lib`/`part`. -/
structure Component where
  lib : String
  part : String
  ref : String
  value : String
  footprint : Option String
deriving DecidableEq, Repr

/-- A `node` of a net entry: `ref` and `pin`. -/
structure NetNode where
  ref : String
  pin : String
deriving DecidableEq, Repr

/-- A `net` entry: `name` and its `node` children in order. -/
structure NetEntry where
  name : String
  nodes : List NetNode
deriving DecidableEq, Repr

/-- A structured netlist: the three top-level sections the loader reads. -/
structure Netlist where
  libparts : List Libpart
  components : List Component
  nets : List NetEntry
deriving DecidableEq, Repr

/-! ### Part-template extraction (`_read_kicad_netlist_partcls`)

The Python builds a fresh class per libpart; its class attributes are the
template data below.  The behavior specialization (extra `R`/`C` parent
classes) is carried as a tag, per the spec's closed-variant rendering. -/

inductive Specialization where
  | generic
  | twoTerminalResistor
  | twoTerminalCapacitor
deriving DecidableEq, Repr

structure PartTemplate where
  kicadLib : String
  kicadPart : String
  refdesPre : String
  value : String
  package : String
  pins : List PinDef
  description : String
  special : Specialization
deriving DecidableEq, Repr

/-- Python-dict lookup over the `fields` pairs: `_read_fields` builds a
dict by comprehension, so a later pair with the same name wins. -/
def lookupLast (k : String) : List (String × String) → Option String
  | [] => none
  | (k', v) :: rest =>
      match lookupLast k rest with
      | some v' => some v'
      | none => if k' = k then some v else none

/-- Modelled from the spec: `KicadPart.REFDES_PREFIX`, the default
reference-designator prefix inherited from the host's generic `Part`
(`pcbdl/base.py`, not in the importer source).  Spec §3: "reference-
designator prefix (default "U" unless overridden)". -/
def defaultRefdesPre : String := "U"

/-- The per-pin body of the `for pin in pins` loop: substitute `~` names
by `"P%s" % num`, then tokenize name and number with the splitter and
build `Pin(pin_numbers, pin_names)`. -/
def pinDef (p : RawPin) : PinDef :=
  let nm := if p.name = "~" then "P" ++ p.num else p.name
  { numbers := pinSplit p.num, names := pinSplit nm }

/-- `if len(pcbdl_pins) == 2: if refdes_prefix == "R": ... if == "C": ...` -/
def specialOf (pins : List PinDef) (rp : String) : Specialization :=
  if pins.length = 2 then
    if rp = "R" then .twoTerminalResistor
    else if rp = "C" then .twoTerminalCapacitor
    else .generic
  else .generic

/-- `_read_kicad_netlist_partcls(libpart)` over the structured entry. -/
def _read_kicad_netlist_partcls (lp : Libpart) : PartTemplate :=
  let pcbdl_pins := lp.pins.map pinDef
  let rp := (lookupLast "Reference" lp.fields).getD defaultRefdesPre
  { kicadLib := lp.lib
    kicadPart := lp.part
    refdesPre := rp
    value := (lookupLast "Value" lp.fields).getD ""
    package := (lookupLast "Footprint" lp.fields).getD ""
    pins := pcbdl_pins
    description := lp.description
    special := specialOf pcbdl_pins rp }

/-! ### The loader (`read_kicad_netlist`) -/

/-- A pin of a concrete part instance.  Modelled from the spec: the Part
constructor copies the template's ordered pins onto the instance
(spec §3: "ordered pins (copied from template)"); `owner`/`idx` record
the Python object identity of the copied pin (which instance it belongs
to and its position), since net dedup compares pins by identity. -/
structure InstPin where
  owner : String
  idx : Nat
  numbers : List String
  names : List String
deriving DecidableEq, Repr

/-- `part_class(refdes=..., value=...)` plus the mutable attributes the
loader sets.  Modelled from the spec at the collaborator boundary
(spec §6): refdes and value from the constructor call, package and pins
defaulted from the template (class attributes), provenance. -/
structure PartInstance where
  refdes : String
  value : String
  package : String
  pins : List InstPin
  special : Specialization
  definedAt : String
deriving DecidableEq, Repr

/-- A constructed net.  Modelled from the spec: `Net(name)` registers in
the ambient graph; `n << pin` appends to its readable connection set. -/
structure NetInstance where
  name : String
  connections : List InstPin
  definedAt : String
deriving DecidableEq, Repr

/-- Errors `read_kicad_netlist` raises.  `partNotFound` is
`PartNotFoundException` (line 118); `refdesNotFound` is the plain dict
`KeyError` from `parts[node["ref"]]` (line 148); `pinNotFound` is the
`KeyError` raised at line 154 (the spec's PinNotFoundError). -/
inductive LoadError where
  | partNotFound (lib : String) (part : String)
  | refdesNotFound (ref : String)
  | pinNotFound (pinNumber : String) (ref : String)
deriving DecidableEq, Repr

/-- `parts[refdes] = instance` on a Python dict: replace in place if the
key exists, else append. -/
def dictInsert (k : String) (v : α) : List (String × α) → List (String × α)
  | [] => [(k, v)]
  | (k', v') :: rest =>
      if k' = k then (k, v) :: rest else (k', v') :: dictInsert k v rest

/-- `parts[key]` on a Python dict. -/
def dictFind (k : String) : List (String × α) → Option α
  | [] => none
  | (k', v) :: rest => if k' = k then some v else dictFind k rest

/-- The `for part_class in part_classes: ... break / else: raise` scan:
first template whose `_kicad_lib`/`_kicad_part` equal the component's
libsource. -/
def findTemplate (lib pt : String) : List PartTemplate → Option PartTemplate
  | [] => none
  | t :: ts =>
      if t.kicadLib = lib ∧ t.kicadPart = pt then some t
      else findTemplate lib pt ts

/-- Copying a template's ordered pins onto a new instance, recording
each copy's identity (owning refdes and position). -/
def copyPins (owner : String) : Nat → List PinDef → List InstPin
  | _, [] => []
  | i, p :: ps =>
      { owner := owner, idx := i, numbers := p.numbers, names := p.names } ::
        copyPins owner (i + 1) ps

/-- Constructing the part instance for one component from its resolved
template: refdes/value from the component, pins copied from the template
(with identity), package from the footprint when present (template
default otherwise), provenance from the filename. -/
def instantiate (t : PartTemplate) (c : Component) (filename : String) :
    PartInstance :=
  { refdes := c.ref
    value := c.value
    package := (c.footprint).getD t.package
    pins := copyPins c.ref 0 t.pins
    special := t.special
    definedAt := filename }

/-- The `for component in ...` loop.  `warns` collects the refdes of each
instance reported by the missing-footprint `print` (line 128; the printed
text also carries the part repr, which lives in the host collaborator —
the refdes identifies the instance). -/
def loadComponents (templates : List PartTemplate) (filename : String) :
    List Component → List (String × PartInstance) → List String →
    Except LoadError (List (String × PartInstance) × List String)
  | [], parts, warns => .ok (parts, warns)
  | c :: cs, parts, warns =>
      match findTemplate c.lib c.part templates with
      | none => .error (.partNotFound c.lib c.part)
      | some t =>
          let inst := instantiate t c filename
          let warns' := match c.footprint with
            | some _ => warns
            | none => warns ++ [c.ref]
          loadComponents templates filename cs (dictInsert c.ref inst parts) warns'

/-- `for pin in part.pins: if pin_number in pin.numbers: break / else:
raise`: first pin of the part whose number set contains the token. -/
def findPin (pn : String) : List InstPin → Option InstPin
  | [] => none
  | p :: ps => if pn ∈ p.numbers then some p else findPin pn ps

/-- The `for node in nodes` loop: resolve the part by refdes, resolve the
physical pin number to the owning logical pin, and connect it only if it
is not already among the net's connections. -/
def buildConnections (parts : List (String × PartInstance)) :
    List NetNode → List InstPin → Except LoadError (List InstPin)
  | [], conns => .ok conns
  | node :: rest, conns =>
      match dictFind node.ref parts with
      | none => .error (.refdesNotFound node.ref)
      | some part =>
          match findPin node.pin part.pins with
          | none => .error (.pinNotFound node.pin part.refdes)
          | some pin =>
              buildConnections parts rest
                (if pin ∈ conns then conns else conns ++ [pin])

/-- Character-list prefix test: `isPre p l` is true when `p` is an
initial segment of `l`. -/
def isPre : List Char → List Char → Bool
  | [], _ => true
  | _ :: _, [] => false
  | a :: as, b :: bs => a = b && isPre as bs

/-- Python's `s.startswith(p)`. -/
def startsWithB (s p : String) : Bool :=
  isPre p.data s.data

/-- The no-connect filter, negated: `True` when the net IS constructed
(`len(nodes) == 1 and name.startswith("Net-")` skips it). -/
def keepNet (ne : NetEntry) : Bool :=
  ¬(ne.nodes.length = 1 ∧ startsWithB ne.name "Net-" = true)

/-- The `for net_sexp in ...` loop.  Constructed nets are accumulated in
order; in Python they register themselves in the ambient graph context. -/
def loadNets (parts : List (String × PartInstance)) (filename : String) :
    List NetEntry → List NetInstance → Except LoadError (List NetInstance)
  | [], acc => .ok acc
  | ne :: rest, acc =>
      if keepNet ne then
        match buildConnections parts ne.nodes [] with
        | .error e => .error e
        | .ok conns =>
            loadNets parts filename rest
              (acc ++ [{ name := ne.name, connections := conns,
                         definedAt := filename }])
      else loadNets parts filename rest acc

/-- `read_kicad_netlist(filename)` over the structured netlist: build the
template catalog, populate the parts mapping, then build the nets.
Returns the parts mapping together with the constructed nets (the
ambient-graph side effects) and the missing-footprint warnings (the
`print` diagnostics); the Python also returns the raw parsed tree, which
is the input here. -/
def read_kicad_netlist (filename : String) (nl : Netlist) :
    Except LoadError
      (List (String × PartInstance) × List NetInstance × List String) :=
  let part_classes := nl.libparts.map _read_kicad_netlist_partcls
  match loadComponents part_classes filename nl.components [] [] with
  | .error e => .error e
  | .ok (parts, warns) =>
      match loadNets parts filename nl.nets [] with
      | .error e => .error e
      | .ok nets => .ok (parts, nets, warns)

/-! ## Theorems

### Tokenizer characterization -/

/-- The spec's description of the tokenizer, stated independently of the
accumulator recursion: split the string at every delimiter character and
keep the non-empty chunks (so a *run* of delimiters produces a single
split point). -/
def specTokens (s : String) : List String :=
  ((s.data.splitOnP isPinDelim).filter fun l => !l.isEmpty).map List.asString

theorem isEmpty_concat_false (l : List Char) (a : Char) :
    (l ++ [a]).isEmpty = false := by
  cases l <;> rfl

theorem pinSplitAux_splitOnP (cs : List Char) : ∀ acc : List Char,
    pinSplitAux cs acc =
      ((cs.splitOnP isPinDelim).modifyHead (acc.reverse ++ ·)).filter
        (fun l => !l.isEmpty) := by
  induction cs with
  | nil =>
      intro acc
      rw [List.splitOnP_nil isPinDelim]
      cases acc with
      | nil => simp [pinSplitAux]
      | cons a as =>
          simp [pinSplitAux, List.modifyHead, List.filter, isEmpty_concat_false]
  | cons c cs ih =>
      intro acc
      rw [List.splitOnP_cons]
      cases hc : isPinDelim c with
      | true =>
          simp only [if_true]
          rw [show pinSplitAux (c :: cs) acc =
              (if acc.isEmpty then [] else [acc.reverse]) ++ pinSplitAux cs [] by
            simp [pinSplitAux, hc]]
          rw [ih []]
          cases h : cs.splitOnP isPinDelim with
          | nil =>
              cases acc <;>
                simp [List.modifyHead, List.filter, isEmpty_concat_false]
          | cons x xs =>
              cases acc <;>
                simp [List.modifyHead, List.filter, isEmpty_concat_false]
      | false =>
          simp only [Bool.false_eq_true, if_false]
          rw [show pinSplitAux (c :: cs) acc = pinSplitAux cs (c :: acc) by
            simp [pinSplitAux, hc]]
          rw [ih (c :: acc)]
          cases h : cs.splitOnP isPinDelim with
          | nil => simp [List.modifyHead]
          | cons x xs =>
              simp [List.modifyHead, List.filter, isEmpty_concat_false]

/-- The accumulator splitter computes exactly the spec-side tokenization. -/
theorem pinSplit_eq_specTokens (s : String) : pinSplit s = specTokens s := by
  unfold pinSplit specTokens
  rw [pinSplitAux_splitOnP s.data []]
  cases h : s.data.splitOnP isPinDelim with
  | nil => simp
  | cons x xs => simp [List.modifyHead]

/-- C6 (counterexample): the claim says that when the raw name is exactly
`~` the canonical name becomes `P` followed by the raw pin number
*instead of being tokenized*; but the code substitutes first and then
tokenizes the substituted name, so a gang pin numbered `1,3` with name
`~` gets the alias tokens `P1`,`3`, not the single name `P1,3`. -/
theorem C6_counterexample :
    (pinDef { num := "1,3", name := "~", ptype := "passive" }).names =
      ["P1", "3"] ∧
    (pinDef { num := "1,3", name := "~", ptype := "passive" }).names ≠
      ["P1,3"] := by
  constructor
  · rfl
  · decide

/-- C6 (amended): for every libpart pin, the raw number field is split on
any run of delimiter characters from {`(`, `)`, `/`, whitespace, `,`}
into the physical number set, and the raw name — after first replacing an
exact `~` by `P` followed by the raw number field — is split the same way
into the alias set (so a delimiter-free number such as `7` yields the
single canonical name `P7`, and `A/B` yields aliases `A`,`B`). -/
theorem C6_pin_tokenizer (p : RawPin) :
    (pinDef p).numbers = specTokens p.num ∧
    (pinDef p).names =
      specTokens (if p.name = "~" then "P" ++ p.num else p.name) ∧
    pinSplit "A/B" = ["A", "B"] ∧
    (pinDef { num := "7", name := "~", ptype := "passive" }).names = ["P7"] ∧
    (pinDef { num := "1,3", name := "A", ptype := "passive" }).numbers =
      ["1", "3"] := by
  refine ⟨?_, ?_, rfl, rfl, rfl⟩
  · show pinSplit p.num = specTokens p.num
    exact pinSplit_eq_specTokens p.num
  · show pinSplit (if p.name = "~" then "P" ++ p.num else p.name) = _
    exact pinSplit_eq_specTokens _

/-! ### Unique-by-tag lookup (`_Better_sexp.__getitem__`) -/

theorem matchesKey_of_childOk (key : String) (s : Sexp)
    (h : childOk s = true) :
    matchesKey key s = .ok (matchesKeyB key s) := by
  cases s with
  | atom a => rfl
  | list l =>
      cases l with
      | nil => simp [childOk] at h
      | cons hd tl =>
          cases hd with
          | atom t => rfl
          | list m => simp [childOk] at h

theorem getItemAux_no_match (key : String) :
    ∀ items : List Sexp, items.all childOk = true →
      items.filter (matchesKeyB key) = [] →
      ∀ found : Option Sexp,
        getItemAux key items found =
          (match found with
           | none => .error (.keyNotFound key)
           | some x => .ok x) := by
  intro items
  induction items with
  | nil => intro _ _ found; cases found <;> rfl
  | cons item rest ih =>
      intro hok hf found
      rw [List.all_cons, Bool.and_eq_true] at hok
      rw [List.filter_cons] at hf
      cases hb : matchesKeyB key item with
      | true => simp [hb] at hf
      | false =>
          simp only [hb, if_false] at hf
          simp only [getItemAux, matchesKey_of_childOk key item hok.1, hb]
          exact ih hok.2 hf found

theorem getItemAux_pending_ambiguous (key : String) :
    ∀ items : List Sexp, items.all childOk = true →
      items.filter (matchesKeyB key) ≠ [] →
      ∀ x : Sexp,
        getItemAux key items (some x) = .error (.ambiguous key) := by
  intro items
  induction items with
  | nil => intro _ hf; exact absurd rfl hf
  | cons item rest ih =>
      intro hok hf x
      rw [List.all_cons, Bool.and_eq_true] at hok
      rw [List.filter_cons] at hf
      cases hb : matchesKeyB key item with
      | true =>
          simp only [getItemAux, matchesKey_of_childOk key item hok.1, hb]
      | false =>
          simp only [hb, if_false] at hf
          simp only [getItemAux, matchesKey_of_childOk key item hok.1, hb]
          exact ih hok.2 hf x

theorem getItemAux_single_match (key : String) :
    ∀ items : List Sexp, items.all childOk = true →
      ∀ x : Sexp, items.filter (matchesKeyB key) = [x] →
        getItemAux key items none = .ok x := by
  intro items
  induction items with
  | nil => intro _ x hf; simp at hf
  | cons item rest ih =>
      intro hok x hf
      rw [List.all_cons, Bool.and_eq_true] at hok
      rw [List.filter_cons] at hf
      cases hb : matchesKeyB key item with
      | true =>
          simp only [hb, if_true, List.cons.injEq] at hf
          simp only [getItemAux, matchesKey_of_childOk key item hok.1, hb]
          rw [getItemAux_no_match key rest hok.2 hf.2 (some item)]
          rw [hf.1]
      | false =>
          simp only [hb, if_false] at hf
          simp only [getItemAux, matchesKey_of_childOk key item hok.1, hb]
          exact ih hok.2 x hf

theorem getItemAux_two_matches (key : String) :
    ∀ items : List Sexp, items.all childOk = true →
      2 ≤ (items.filter (matchesKeyB key)).length →
      getItemAux key items none = .error (.ambiguous key) := by
  intro items
  induction items with
  | nil => intro _ hf; simp at hf
  | cons item rest ih =>
      intro hok hf
      rw [List.all_cons, Bool.and_eq_true] at hok
      rw [List.filter_cons] at hf
      cases hb : matchesKeyB key item with
      | true =>
          simp only [hb, if_true, List.length_cons] at hf
          simp only [getItemAux, matchesKey_of_childOk key item hok.1, hb]
          have hne : rest.filter (matchesKeyB key) ≠ [] := by
            intro hnil
            rw [hnil, List.length_nil] at hf
            omega
          exact getItemAux_pending_ambiguous key rest hok.2 hne item
      | false =>
          simp only [hb, if_false] at hf
          simp only [getItemAux, matchesKey_of_childOk key item hok.1, hb]
          exact ih hok.2 hf

/-- C7: over a list of well-formed children (atoms or atom-tagged lists),
the string-keyed `__getitem__` scans the immediate children that are
lists tagged by the key: it returns the single match when exactly one
child matches, fails with the key-not-found `KeyError` when none does,
and fails with the "More than one" `KeyError` when two or more do. -/
theorem C7_unique_by_tag (key : String) (items : List Sexp)
    (hok : items.all childOk = true) :
    (items.filter (matchesKeyB key) = [] →
      getItem key items = .error (.keyNotFound key)) ∧
    (∀ x, items.filter (matchesKeyB key) = [x] →
      getItem key items = .ok x) ∧
    (2 ≤ (items.filter (matchesKeyB key)).length →
      getItem key items = .error (.ambiguous key)) := by
  refine ⟨fun hf => ?_, fun x hf => ?_, fun hf => ?_⟩
  · exact getItemAux_no_match key items hok hf none
  · exact getItemAux_single_match key items hok x hf
  · exact getItemAux_two_matches key items hok hf

/-- C7 witness: a tagged list with two children both tagged `pin` is
well-formed and its unique lookup on `pin` is ambiguous. -/
theorem C7_unique_by_tag_witness :
    ([Sexp.list [Sexp.atom "pin", Sexp.atom "1"],
      Sexp.list [Sexp.atom "pin", Sexp.atom "2"]].all childOk = true) ∧
    getItem "pin"
      [Sexp.list [Sexp.atom "pin", Sexp.atom "1"],
       Sexp.list [Sexp.atom "pin", Sexp.atom "2"]] =
      .error (.ambiguous "pin") := by
  refine ⟨rfl, ?_⟩
  exact (C7_unique_by_tag "pin"
    [Sexp.list [Sexp.atom "pin", Sexp.atom "1"],
     Sexp.list [Sexp.atom "pin", Sexp.atom "2"]] rfl).2.2 (by decide)

/-! ### Catalog and component-stage lemmas -/

/-- The component/libpart matching predicate, on libpart entries. -/
def lpMatches (lib pt : String) (lp : Libpart) : Bool :=
  decide (lp.lib = lib ∧ lp.part = pt)

/-- The template catalog built from the `libparts` section. -/
def catalogOf (nl : Netlist) : List PartTemplate :=
  nl.libparts.map _read_kicad_netlist_partcls

theorem partcls_kicadLib (lp : Libpart) :
    (_read_kicad_netlist_partcls lp).kicadLib = lp.lib := rfl

theorem partcls_kicadPart (lp : Libpart) :
    (_read_kicad_netlist_partcls lp).kicadPart = lp.part := rfl

theorem find?_eq_head?_filter (p : α → Bool) :
    ∀ l : List α, l.find? p = (l.filter p).head? := by
  intro l
  induction l with
  | nil => rfl
  | cons a l ih =>
      rw [List.find?_cons, List.filter_cons]
      cases h : p a with
      | true => rfl
      | false => exact ih

/-- The linear template scan over the catalog is the first libpart entry
matching on `(lib, part)`, instantiated as a template. -/
theorem findTemplate_eq_find? (lib pt : String) :
    ∀ lps : List Libpart,
      findTemplate lib pt (lps.map _read_kicad_netlist_partcls) =
        (lps.find? (lpMatches lib pt)).map _read_kicad_netlist_partcls := by
  intro lps
  induction lps with
  | nil => rfl
  | cons lp rest ih =>
      rw [List.map_cons]
      by_cases h : lp.lib = lib ∧ lp.part = pt
      · simp [findTemplate, partcls_kicadLib, partcls_kicadPart, h,
          List.find?_cons, lpMatches]
      · simp only [findTemplate, partcls_kicadLib, partcls_kicadPart]
        rw [if_neg h, ih, List.find?_cons]
        have : lpMatches lib pt lp = false := by
          simp [lpMatches, h]
        rw [this]

theorem dictFind_insert_self (k : String) (v : α) :
    ∀ l : List (String × α), dictFind k (dictInsert k v l) = some v := by
  intro l
  induction l with
  | nil => simp [dictInsert, dictFind]
  | cons p rest ih =>
      by_cases h : p.1 = k
      · simp [dictInsert, dictFind, h]
      · simp [dictInsert, dictFind, h, ih]

theorem dictFind_insert_ne (k k' : String) (v : α) (h : k' ≠ k) :
    ∀ l : List (String × α), dictFind k (dictInsert k' v l) = dictFind k l := by
  intro l
  induction l with
  | nil => simp [dictInsert, dictFind, h]
  | cons p rest ih =>
      by_cases hp : p.1 = k'
      · simp [dictInsert, dictFind, hp, h]
      · simp only [dictInsert, dictFind]
        rw [if_neg hp]
        by_cases hk : p.1 = k
        · simp [dictFind, hk]
        · simp [dictFind, hk, ih]

/-- The component loop succeeds exactly when every component's
`(lib, part)` pair resolves to some template; its only failure is
`PartNotFoundException`, which is independent of refdes values. -/
theorem loadComponents_ok_iff (tmpl : List PartTemplate) (f : String) :
    ∀ (cs : List Component) (parts : List (String × PartInstance))
      (warns : List String),
      (∃ r, loadComponents tmpl f cs parts warns = .ok r) ↔
        ∀ c ∈ cs, (findTemplate c.lib c.part tmpl).isSome := by
  intro cs
  induction cs with
  | nil =>
      intro parts warns
      constructor
      · intro _ c hc; exact absurd hc (List.not_mem_nil c)
      · intro _; exact ⟨(parts, warns), rfl⟩
  | cons c cs ih =>
      intro parts warns
      cases h : findTemplate c.lib c.part tmpl with
      | none =>
          constructor
          · intro ⟨r, hr⟩
            simp [loadComponents, h] at hr
          · intro hall
            have := hall c (List.mem_cons_self c cs)
            rw [h] at this
            simp at this
      | some t =>
          constructor
          · intro ⟨r, hr⟩
            simp only [loadComponents, h] at hr
            intro c' hc'
            rcases List.mem_cons.mp hc' with rfl | hmem
            · rw [h]; rfl
            · exact ((ih _ _).mp ⟨r, hr⟩) c' hmem
          · intro hall
            have hrest := (ih (dictInsert c.ref (instantiate t c f) parts)
              (match c.footprint with
               | some _ => warns
               | none => warns ++ [c.ref])).mpr
              (fun c' hc' => hall c' (List.mem_cons_of_mem c hc'))
            rcases hrest with ⟨r, hr⟩
            exact ⟨r, by simp only [loadComponents, h]; exact hr⟩

/-- Keys never written by the loop are left untouched in the mapping. -/
theorem loadComponents_find_of_not_mem (tmpl : List PartTemplate)
    (f : String) :
    ∀ (cs : List Component) (parts : List (String × PartInstance))
      (warns : List String) (res : List (String × PartInstance) × List String),
      loadComponents tmpl f cs parts warns = .ok res →
      ∀ k : String, (∀ c ∈ cs, c.ref ≠ k) →
        dictFind k res.1 = dictFind k parts := by
  intro cs
  induction cs with
  | nil =>
      intro parts warns res hres k _
      simp only [loadComponents] at hres
      cases hres
      rfl
  | cons c cs ih =>
      intro parts warns res hres k hk
      cases h : findTemplate c.lib c.part tmpl with
      | none => simp [loadComponents, h] at hres
      | some t =>
          simp only [loadComponents, h] at hres
          have hrest := ih _ _ _ hres k
            (fun c' hc' => hk c' (List.mem_cons_of_mem c hc'))
          rw [hrest, dictFind_insert_ne k c.ref _
            (hk c (List.mem_cons_self c cs))]

/-- The mapping's entry at a refdes is the instance built from the *last*
component carrying that refdes. -/
theorem loadComponents_find_last (tmpl : List PartTemplate) (f : String) :
    ∀ (l1 : List Component) (c : Component) (l2 : List Component)
      (parts : List (String × PartInstance)) (warns : List String)
      (res : List (String × PartInstance) × List String),
      loadComponents tmpl f (l1 ++ c :: l2) parts warns = .ok res →
      (∀ c' ∈ l2, c'.ref ≠ c.ref) →
      ∀ t : PartTemplate, findTemplate c.lib c.part tmpl = some t →
        dictFind c.ref res.1 = some (instantiate t c f) := by
  intro l1
  induction l1 with
  | nil =>
      intro c l2 parts warns res hres hlast t ht
      rw [List.nil_append] at hres
      simp only [loadComponents, ht] at hres
      rw [loadComponents_find_of_not_mem tmpl f l2 _ _ res hres c.ref hlast]
      exact dictFind_insert_self c.ref _ _
  | cons c1 l1 ih =>
      intro c l2 parts warns res hres hlast t ht
      rw [List.cons_append] at hres
      cases h : findTemplate c1.lib c1.part tmpl with
      | none => simp [loadComponents, h] at hres
      | some t1 =>
          simp only [loadComponents, h] at hres
          exact ih c l2 _ _ res hres hlast t ht

/-- Warnings already accumulated survive the rest of the loop. -/
theorem loadComponents_warns_mono (tmpl : List PartTemplate) (f : String) :
    ∀ (cs : List Component) (parts : List (String × PartInstance))
      (warns : List String) (res : List (String × PartInstance) × List String),
      loadComponents tmpl f cs parts warns = .ok res →
      ∀ x ∈ warns, x ∈ res.2 := by
  intro cs
  induction cs with
  | nil =>
      intro parts warns res hres x hx
      simp only [loadComponents] at hres
      cases hres
      exact hx
  | cons c cs ih =>
      intro parts warns res hres x hx
      cases h : findTemplate c.lib c.part tmpl with
      | none => simp [loadComponents, h] at hres
      | some t =>
          simp only [loadComponents, h] at hres
          refine ih _ _ res hres x ?_
          cases hf : c.footprint with
          | none => simp [hf]; exact Or.inl hx
          | some fp => simpa [hf] using hx

/-- Every footprint-less component leaves its warning in the output. -/
theorem loadComponents_warns_of_none (tmpl : List PartTemplate) (f : String) :
    ∀ (cs : List Component) (parts : List (String × PartInstance))
      (warns : List String) (res : List (String × PartInstance) × List String),
      loadComponents tmpl f cs parts warns = .ok res →
      ∀ c ∈ cs, c.footprint = none → c.ref ∈ res.2 := by
  intro cs
  induction cs with
  | nil =>
      intro parts warns res _ c hc
      exact absurd hc (List.not_mem_nil c)
  | cons c0 cs ih =>
      intro parts warns res hres c hc hfp
      cases h : findTemplate c0.lib c0.part tmpl with
      | none => simp [loadComponents, h] at hres
      | some t =>
          simp only [loadComponents, h] at hres
          rcases List.mem_cons.mp hc with rfl | hmem
          · refine loadComponents_warns_mono tmpl f cs _ _ res hres c.ref ?_
            simp [hfp]
          · exact ih _ _ res hres c hmem hfp

/-- A component with no matching template makes the loop fail with
`PartNotFoundException` carrying the (lib, part) pair of the first such
component it reaches. -/
theorem loadComponents_error_of_no_match (tmpl : List PartTemplate)
    (f : String) :
    ∀ (cs : List Component) (parts : List (String × PartInstance))
      (warns : List String),
      (∃ c ∈ cs, findTemplate c.lib c.part tmpl = none) →
      ∃ lib pt,
        loadComponents tmpl f cs parts warns =
          .error (.partNotFound lib pt) ∧
        ∃ c' ∈ cs, c'.lib = lib ∧ c'.part = pt ∧
          findTemplate lib pt tmpl = none := by
  intro cs
  induction cs with
  | nil =>
      intro parts warns hex
      rcases hex with ⟨c, hc, _⟩
      exact absurd hc (List.not_mem_nil c)
  | cons c0 cs ih =>
      intro parts warns hex
      cases h0 : findTemplate c0.lib c0.part tmpl with
      | none =>
          refine ⟨c0.lib, c0.part, ?_, c0, List.mem_cons_self c0 cs,
            rfl, rfl, h0⟩
          simp [loadComponents, h0]
      | some t =>
          have hex' : ∃ c ∈ cs, findTemplate c.lib c.part tmpl = none := by
            rcases hex with ⟨c, hc, hcn⟩
            rcases List.mem_cons.mp hc with rfl | hmem
            · rw [h0] at hcn; cases hcn
            · exact ⟨c, hmem, hcn⟩
          rcases ih _ _ hex' with ⟨lib, pt, herr, c', hc', h1, h2, h3⟩
          refine ⟨lib, pt, ?_, c', List.mem_cons_of_mem c0 hc', h1, h2, h3⟩
          simpa only [loadComponents, h0] using herr

/-! ### Read-level glue -/

theorem read_ok_elim (f : String) (nl : Netlist)
    (parts : List (String × PartInstance)) (nets : List NetInstance)
    (warns : List String)
    (h : read_kicad_netlist f nl = .ok (parts, nets, warns)) :
    loadComponents (catalogOf nl) f nl.components [] [] = .ok (parts, warns) ∧
    loadNets parts f nl.nets [] = .ok nets := by
  have h' : (match loadComponents (catalogOf nl) f nl.components [] [] with
      | Except.error e => (Except.error e :
          Except LoadError
            (List (String × PartInstance) × List NetInstance × List String))
      | Except.ok (p, w) =>
          match loadNets p f nl.nets [] with
          | Except.error e => Except.error e
          | Except.ok ns => Except.ok (p, ns, w)) =
      Except.ok (parts, nets, warns) := h
  cases hc : loadComponents (catalogOf nl) f nl.components [] [] with
  | error e => rw [hc] at h'; cases h'
  | ok pw =>
      obtain ⟨p, w⟩ := pw
      rw [hc] at h'
      dsimp only at h'
      cases hn : loadNets p f nl.nets [] with
      | error e => rw [hn] at h'; cases h'
      | ok ns =>
          rw [hn] at h'
          injection h' with h2
          simp only [Prod.mk.injEq] at h2
          obtain ⟨rfl, rfl, rfl⟩ := h2
          exact ⟨rfl, hn⟩

theorem read_error_of_components (f : String) (nl : Netlist) (e : LoadError)
    (h : loadComponents (catalogOf nl) f nl.components [] [] = .error e) :
    read_kicad_netlist f nl = .error e := by
  show (match loadComponents (catalogOf nl) f nl.components [] [] with
      | Except.error e => (Except.error e :
          Except LoadError
            (List (String × PartInstance) × List NetInstance × List String))
      | Except.ok (p, w) =>
          match loadNets p f nl.nets [] with
          | Except.error e => Except.error e
          | Except.ok ns => Except.ok (p, ns, w)) = Except.error e
  rw [h]

/-! ### Claims C2 and C9 -/

/-- With all earlier components matching, reaching a component with no
matching template raises `PartNotFoundException` with that component's
own (lib, part) pair. -/
theorem loadComponents_error_first (tmpl : List PartTemplate) (f : String) :
    ∀ (l1 : List Component) (c : Component) (l2 : List Component)
      (parts : List (String × PartInstance)) (warns : List String),
      (∀ c' ∈ l1, (findTemplate c'.lib c'.part tmpl).isSome) →
      findTemplate c.lib c.part tmpl = none →
      loadComponents tmpl f (l1 ++ c :: l2) parts warns =
        .error (.partNotFound c.lib c.part) := by
  intro l1
  induction l1 with
  | nil =>
      intro c l2 parts warns _ hnone
      rw [List.nil_append]
      simp [loadComponents, hnone]
  | cons c1 l1 ih =>
      intro c l2 parts warns hpre hnone
      have h1 := hpre c1 (List.mem_cons_self c1 l1)
      cases ht1 : findTemplate c1.lib c1.part tmpl with
      | none => rw [ht1] at h1; cases h1
      | some t1 =>
          rw [List.cons_append]
          simp only [loadComponents, ht1]
          exact ih c l2 _ _
            (fun c' hc' => hpre c' (List.mem_cons_of_mem c1 hc')) hnone

/-- C2: the first component whose `(lib, part)` pair matches zero
libpart entries makes the whole load fail with `PartNotFoundException`
carrying exactly that unmatched pair. -/
theorem C2_part_not_found (f : String) (nl : Netlist)
    (l1 : List Component) (c : Component) (l2 : List Component)
    (hsplit : nl.components = l1 ++ c :: l2)
    (hpre : ∀ c' ∈ l1, (findTemplate c'.lib c'.part (catalogOf nl)).isSome)
    (hnone : nl.libparts.filter (lpMatches c.lib c.part) = []) :
    read_kicad_netlist f nl = .error (.partNotFound c.lib c.part) := by
  have hft : findTemplate c.lib c.part (catalogOf nl) = none := by
    unfold catalogOf
    rw [findTemplate_eq_find?, find?_eq_head?_filter, hnone]
    rfl
  refine read_error_of_components f nl _ ?_
  rw [hsplit]
  exact loadComponents_error_first (catalogOf nl) f l1 c l2 [] [] hpre hft

/-- C2 witness: one component, empty libparts section. -/
theorem C2_part_not_found_witness :
    ((Netlist.mk [] [Component.mk "X" "Y" "R1" "v" none] []).libparts.filter
        (lpMatches "X" "Y") = []) ∧
    read_kicad_netlist "f.net"
        (Netlist.mk [] [Component.mk "X" "Y" "R1" "v" none] []) =
      .error (.partNotFound "X" "Y") := by
  refine ⟨rfl, ?_⟩
  exact C2_part_not_found "f.net"
    (Netlist.mk [] [Component.mk "X" "Y" "R1" "v" none] [])
    [] (Component.mk "X" "Y" "R1" "v" none) [] rfl
    (fun c' h => absurd h (List.not_mem_nil c')) rfl

/-- C9: (a) reference designators carry no uniqueness check — the
component loop succeeds exactly when every component's pair matches a
template, duplicates included, with no other error or diagnostic; and
(b) on a duplicated refdes the final mapping holds the instance built
from the later component (last write wins). -/
theorem C9_last_write_wins (f : String) (nl : Netlist)
    (l1 : List Component) (c1 : Component) (l2 : List Component)
    (c2 : Component) (l3 : List Component)
    (hsplit : nl.components = l1 ++ c1 :: (l2 ++ c2 :: l3))
    (href : c1.ref = c2.ref)
    (hlast : ∀ c' ∈ l3, c'.ref ≠ c2.ref)
    (t2 : PartTemplate)
    (ht : findTemplate c2.lib c2.part (catalogOf nl) = some t2)
    (parts : List (String × PartInstance)) (nets : List NetInstance)
    (warns : List String)
    (hok : read_kicad_netlist f nl = .ok (parts, nets, warns)) :
    dictFind c2.ref parts = some (instantiate t2 c2 f) ∧
    (∀ (cs : List Component) (ps : List (String × PartInstance))
        (ws : List String),
      (∃ r, loadComponents (catalogOf nl) f cs ps ws = .ok r) ↔
        ∀ c ∈ cs, (findTemplate c.lib c.part (catalogOf nl)).isSome) := by
  obtain ⟨hcomp, -⟩ := read_ok_elim f nl parts nets warns hok
  constructor
  · have hassoc : nl.components = (l1 ++ c1 :: l2) ++ c2 :: l3 := by
      rw [hsplit]; simp
    rw [hassoc] at hcomp
    have := loadComponents_find_last (catalogOf nl) f (l1 ++ c1 :: l2) c2 l3
      [] [] (parts, warns) hcomp hlast t2 ht
    exact this
  · intro cs ps ws
    exact loadComponents_ok_iff (catalogOf nl) f cs ps ws

/-! ### Claims C1, C10, C8 -/

theorem copyPins_strip (o : String) :
    ∀ (l : List PinDef) (i : Nat),
      (copyPins o i l).map (fun p => (p.numbers, p.names)) =
        l.map (fun p => (p.numbers, p.names)) := by
  intro l
  induction l with
  | nil => intro i; rfl
  | cons p ps ih => intro i; simp [copyPins, ih]

/-- C1: a component whose `(lib, part)` pair matches exactly one libpart
entry (and whose refdes is not re-used later) ends up in the result
mapping under its refdes, as the instance built from that entry's
template: its value is the component's value field and its pin layout
(numbers and name aliases, in order) is the template's pin sequence. -/
theorem C1_template_resolution (f : String) (nl : Netlist)
    (l1 : List Component) (c : Component) (l2 : List Component)
    (hsplit : nl.components = l1 ++ c :: l2)
    (hlast : ∀ c' ∈ l2, c'.ref ≠ c.ref)
    (lp0 : Libpart)
    (huniq : nl.libparts.filter (lpMatches c.lib c.part) = [lp0])
    (parts : List (String × PartInstance)) (nets : List NetInstance)
    (warns : List String)
    (hok : read_kicad_netlist f nl = .ok (parts, nets, warns)) :
    dictFind c.ref parts =
      some (instantiate (_read_kicad_netlist_partcls lp0) c f) ∧
    (instantiate (_read_kicad_netlist_partcls lp0) c f).value = c.value ∧
    (instantiate (_read_kicad_netlist_partcls lp0) c f).pins.map
        (fun p => (p.numbers, p.names)) =
      (_read_kicad_netlist_partcls lp0).pins.map
        (fun p => (p.numbers, p.names)) := by
  have hfind : findTemplate c.lib c.part (catalogOf nl) =
      some (_read_kicad_netlist_partcls lp0) := by
    unfold catalogOf
    rw [findTemplate_eq_find?, find?_eq_head?_filter, huniq]
    rfl
  obtain ⟨hcomp, -⟩ := read_ok_elim f nl parts nets warns hok
  rw [hsplit] at hcomp
  refine ⟨loadComponents_find_last (catalogOf nl) f l1 c l2 [] []
    (parts, warns) hcomp hlast _ hfind, rfl, ?_⟩
  exact copyPins_strip c.ref (_read_kicad_netlist_partcls lp0).pins 0

/-- C10: a component whose `(lib, part)` pair matches two or more libpart
entries resolves silently to the *first* matching entry in file order:
the scan returns that entry's template, the instance in the mapping is
built from it, and the load raises no ambiguity error (it returned ok). -/
theorem C10_first_match_wins (f : String) (nl : Netlist)
    (l1 : List Component) (c : Component) (l2 : List Component)
    (hsplit : nl.components = l1 ++ c :: l2)
    (hlast : ∀ c' ∈ l2, c'.ref ≠ c.ref)
    (lp0 : Libpart) (rest : List Libpart)
    (hmulti : nl.libparts.filter (lpMatches c.lib c.part) = lp0 :: rest)
    (hge2 : rest ≠ [])
    (parts : List (String × PartInstance)) (nets : List NetInstance)
    (warns : List String)
    (hok : read_kicad_netlist f nl = .ok (parts, nets, warns)) :
    findTemplate c.lib c.part (catalogOf nl) =
      some (_read_kicad_netlist_partcls lp0) ∧
    dictFind c.ref parts =
      some (instantiate (_read_kicad_netlist_partcls lp0) c f) := by
  have hfind : findTemplate c.lib c.part (catalogOf nl) =
      some (_read_kicad_netlist_partcls lp0) := by
    unfold catalogOf
    rw [findTemplate_eq_find?, find?_eq_head?_filter, hmulti]
    rfl
  obtain ⟨hcomp, -⟩ := read_ok_elim f nl parts nets warns hok
  rw [hsplit] at hcomp
  exact ⟨hfind, loadComponents_find_last (catalogOf nl) f l1 c l2 [] []
    (parts, warns) hcomp hlast _ hfind⟩

/-- C8: a component lacking a footprint field (and whose refdes is not
re-used later) still produces an instance in the mapping, with package
equal to the template's default, and the missing-footprint warning names
its refdes. -/
theorem C8_missing_footprint (f : String) (nl : Netlist)
    (l1 : List Component) (c : Component) (l2 : List Component)
    (hsplit : nl.components = l1 ++ c :: l2)
    (hlast : ∀ c' ∈ l2, c'.ref ≠ c.ref)
    (hfp : c.footprint = none)
    (t : PartTemplate)
    (ht : findTemplate c.lib c.part (catalogOf nl) = some t)
    (parts : List (String × PartInstance)) (nets : List NetInstance)
    (warns : List String)
    (hok : read_kicad_netlist f nl = .ok (parts, nets, warns)) :
    c.ref ∈ warns ∧
    dictFind c.ref parts = some (instantiate t c f) ∧
    (instantiate t c f).package = t.package := by
  obtain ⟨hcomp, -⟩ := read_ok_elim f nl parts nets warns hok
  rw [hsplit] at hcomp
  refine ⟨?_, ?_, ?_⟩
  · refine loadComponents_warns_of_none (catalogOf nl) f
      (l1 ++ c :: l2) [] [] (parts, warns) hcomp c ?_ hfp
    exact List.mem_append_right l1 (List.mem_cons_self c l2)
  · exact loadComponents_find_last (catalogOf nl) f l1 c l2 [] []
      (parts, warns) hcomp hlast t ht
  · show c.footprint.getD t.package = t.package
    rw [hfp]
    rfl

/-! ### Net-stage lemmas, claims C3, C4, C5 -/

theorem loadNets_names (parts : List (String × PartInstance)) (f : String) :
    ∀ (nets : List NetEntry) (acc out : List NetInstance),
      loadNets parts f nets acc = .ok out →
      out.map (fun n => n.name) =
        acc.map (fun n => n.name) ++
          (nets.filter keepNet).map (fun ne => ne.name) := by
  intro nets
  induction nets with
  | nil =>
      intro acc out h
      simp only [loadNets] at h
      cases h
      simp
  | cons ne rest ih =>
      intro acc out h
      cases hk : keepNet ne with
      | true =>
          simp only [loadNets, hk, if_true] at h
          cases hb : buildConnections parts ne.nodes [] with
          | error e => rw [hb] at h; cases h
          | ok conns =>
              rw [hb] at h
              have := ih _ _ h
              rw [List.filter_cons, hk]
              simp only [if_true]
              rw [this]
              simp
      | false =>
          simp only [loadNets, hk, Bool.false_eq_true, if_false] at h
          rw [List.filter_cons, hk]
          simp only [Bool.false_eq_true, if_false]
          exact ih _ _ h

/-- C3: the constructed nets are exactly the entries surviving the
no-connect filter, in order: an entry is skipped precisely when it has
exactly one node and its name starts with the auto-generated `Net-`
prefix, so a one-node `Net-` entry yields no net while a `Net-` entry
with two or more nodes is constructed. -/
theorem C3_no_connect_filter (f : String) (nl : Netlist)
    (parts : List (String × PartInstance)) (nets : List NetInstance)
    (warns : List String)
    (hok : read_kicad_netlist f nl = .ok (parts, nets, warns)) :
    nets.map (fun n => n.name) =
      (nl.nets.filter keepNet).map (fun ne => ne.name) ∧
    ∀ ne : NetEntry,
      keepNet ne = false ↔
        (ne.nodes.length = 1 ∧ startsWithB ne.name "Net-" = true) := by
  obtain ⟨-, hnets⟩ := read_ok_elim f nl parts nets warns hok
  constructor
  · have := loadNets_names parts f nl.nets [] nets hnets
    simpa using this
  · intro ne
    simp [keepNet]

theorem buildConnections_nodup (parts : List (String × PartInstance)) :
    ∀ (nodes : List NetNode) (conns out : List InstPin),
      buildConnections parts nodes conns = .ok out →
      conns.Nodup → out.Nodup := by
  intro nodes
  induction nodes with
  | nil =>
      intro conns out h hnd
      simp only [buildConnections] at h
      cases h
      exact hnd
  | cons node rest ih =>
      intro conns out h hnd
      cases hd : dictFind node.ref parts with
      | none => rw [buildConnections, hd] at h; cases h
      | some part =>
          rw [buildConnections, hd] at h
          dsimp only at h
          cases hp : findPin node.pin part.pins with
          | none => rw [hp] at h; cases h
          | some pin =>
              rw [hp] at h
              dsimp only at h
              by_cases hmem : pin ∈ conns
              · rw [if_pos hmem] at h
                exact ih conns out h hnd
              · rw [if_neg hmem] at h
                refine ih _ out h ?_
                rw [List.nodup_append]
                refine ⟨hnd, List.nodup_singleton pin, ?_⟩
                intro a ha hb
                rw [List.mem_singleton] at hb
                subst hb
                exact hmem ha

theorem loadNets_nodup (parts : List (String × PartInstance)) (f : String) :
    ∀ (nets : List NetEntry) (acc out : List NetInstance),
      loadNets parts f nets acc = .ok out →
      (∀ n ∈ acc, n.connections.Nodup) →
      ∀ n ∈ out, n.connections.Nodup := by
  intro nets
  induction nets with
  | nil =>
      intro acc out h hacc
      simp only [loadNets] at h
      cases h
      exact hacc
  | cons ne rest ih =>
      intro acc out h hacc
      cases hk : keepNet ne with
      | true =>
          simp only [loadNets, hk, if_true] at h
          cases hb : buildConnections parts ne.nodes [] with
          | error e => rw [hb] at h; cases h
          | ok conns =>
              rw [hb] at h
              refine ih _ out h ?_
              intro n hn
              rcases List.mem_append.mp hn with hn | hn
              · exact hacc n hn
              · rw [List.mem_singleton] at hn
                subst hn
                exact buildConnections_nodup parts ne.nodes [] conns hb
                  List.nodup_nil
      | false =>
          simp only [loadNets, hk, Bool.false_eq_true, if_false] at h
          exact ih _ out h hacc

/-- C4: in every constructed net, no logical pin appears twice: a
resolved pin is connected only if it is not already among the net's
connections, so the connection list is duplicate-free even when several
physical pin numbers of one logical pin (or redundant nodes) occur. -/
theorem C4_logical_pin_dedup (f : String) (nl : Netlist)
    (parts : List (String × PartInstance)) (nets : List NetInstance)
    (warns : List String)
    (hok : read_kicad_netlist f nl = .ok (parts, nets, warns)) :
    ∀ n ∈ nets, n.connections.Nodup := by
  obtain ⟨-, hnets⟩ := read_ok_elim f nl parts nets warns hok
  exact loadNets_nodup parts f nl.nets [] nets hnets
    (fun n hn => absurd hn (List.not_mem_nil n))

theorem buildConnections_pin_error (parts : List (String × PartInstance)) :
    ∀ (nodes : List NetNode) (conns : List InstPin),
      (∀ node ∈ nodes, (dictFind node.ref parts).isSome) →
      (∃ node ∈ nodes, ∃ part, dictFind node.ref parts = some part ∧
        findPin node.pin part.pins = none) →
      ∃ pn r, buildConnections parts nodes conns =
        .error (.pinNotFound pn r) := by
  intro nodes
  induction nodes with
  | nil =>
      intro conns _ hex
      rcases hex with ⟨node, hmem, _⟩
      exact absurd hmem (List.not_mem_nil node)
  | cons node rest ih =>
      intro conns hrefs hex
      have href := hrefs node (List.mem_cons_self node rest)
      cases hd : dictFind node.ref parts with
      | none => rw [hd] at href; cases href
      | some part =>
          cases hp : findPin node.pin part.pins with
          | none =>
              refine ⟨node.pin, part.refdes, ?_⟩
              rw [buildConnections, hd]
              dsimp only
              rw [hp]
          | some pin =>
              have hex' : ∃ n ∈ rest, ∃ part, dictFind n.ref parts = some part ∧
                  findPin n.pin part.pins = none := by
                rcases hex with ⟨n, hn, pt, hdn, hpn⟩
                rcases List.mem_cons.mp hn with rfl | hmem
                · rw [hd] at hdn
                  injection hdn with hdn
                  subst hdn
                  rw [hp] at hpn
                  cases hpn
                · exact ⟨n, hmem, pt, hdn, hpn⟩
              rcases ih _ (fun n hn => hrefs n (List.mem_cons_of_mem node hn))
                hex' with ⟨pn, r, herr⟩
              refine ⟨pn, r, ?_⟩
              rw [buildConnections, hd]
              dsimp only
              rw [hp]
              exact herr

theorem buildConnections_ok_of_all (parts : List (String × PartInstance)) :
    ∀ (nodes : List NetNode) (conns : List InstPin),
      (∀ node ∈ nodes, ∃ part, dictFind node.ref parts = some part ∧
        (findPin node.pin part.pins).isSome) →
      ∃ out, buildConnections parts nodes conns = .ok out := by
  intro nodes
  induction nodes with
  | nil => intro conns _; exact ⟨conns, rfl⟩
  | cons node rest ih =>
      intro conns hall
      rcases hall node (List.mem_cons_self node rest) with ⟨part, hd, hp⟩
      cases hpin : findPin node.pin part.pins with
      | none => rw [hpin] at hp; cases hp
      | some pin =>
          rcases ih _ (fun n hn => hall n (List.mem_cons_of_mem node hn))
            with ⟨out, hout⟩
          refine ⟨out, ?_⟩
          rw [buildConnections, hd]
          dsimp only
          rw [hpin]
          exact hout

theorem loadNets_pin_error (parts : List (String × PartInstance))
    (f : String) :
    ∀ (nets : List NetEntry) (acc : List NetInstance),
      (∀ ne ∈ nets, keepNet ne = true →
        ∀ node ∈ ne.nodes, (dictFind node.ref parts).isSome) →
      (∃ ne ∈ nets, keepNet ne = true ∧
        ∃ node ∈ ne.nodes, ∃ part, dictFind node.ref parts = some part ∧
          findPin node.pin part.pins = none) →
      ∃ pn r, loadNets parts f nets acc = .error (.pinNotFound pn r) := by
  intro nets
  induction nets with
  | nil =>
      intro acc _ hex
      rcases hex with ⟨ne, hmem, _⟩
      exact absurd hmem (List.not_mem_nil ne)
  | cons ne rest ih =>
      intro acc hrefs hex
      cases hk : keepNet ne with
      | false =>
          have hex' : ∃ ne' ∈ rest, keepNet ne' = true ∧
              ∃ node ∈ ne'.nodes, ∃ part,
                dictFind node.ref parts = some part ∧
                findPin node.pin part.pins = none := by
            rcases hex with ⟨ne', hmem, hk', hrest⟩
            rcases List.mem_cons.mp hmem with rfl | hmem
            · rw [hk] at hk'; cases hk'
            · exact ⟨ne', hmem, hk', hrest⟩
          rcases ih acc
            (fun n hn => hrefs n (List.mem_cons_of_mem ne hn)) hex'
            with ⟨pn, r, herr⟩
          refine ⟨pn, r, ?_⟩
          simp only [loadNets, hk, Bool.false_eq_true, if_false]
          exact herr
      | true =>
          by_cases hbad : ∃ node ∈ ne.nodes, ∃ part,
              dictFind node.ref parts = some part ∧
              findPin node.pin part.pins = none
          · rcases buildConnections_pin_error parts ne.nodes []
              (hrefs ne (List.mem_cons_self ne rest) hk) hbad
              with ⟨pn, r, herr⟩
            refine ⟨pn, r, ?_⟩
            simp only [loadNets, hk, if_true]
            rw [herr]
          · have hall : ∀ node ∈ ne.nodes, ∃ part,
                dictFind node.ref parts = some part ∧
                (findPin node.pin part.pins).isSome := by
              intro node hn
              have hs := hrefs ne (List.mem_cons_self ne rest) hk node hn
              cases hd : dictFind node.ref parts with
              | none => rw [hd] at hs; cases hs
              | some part =>
                  refine ⟨part, rfl, ?_⟩
                  cases hp : findPin node.pin part.pins with
                  | none => exact absurd ⟨node, hn, part, hd, hp⟩ hbad
                  | some pin => rfl
            rcases buildConnections_ok_of_all parts ne.nodes [] hall
              with ⟨conns, hconns⟩
            have hex' : ∃ ne' ∈ rest, keepNet ne' = true ∧
                ∃ node ∈ ne'.nodes, ∃ part,
                  dictFind node.ref parts = some part ∧
                  findPin node.pin part.pins = none := by
              rcases hex with ⟨ne', hmem, hk', hrest⟩
              rcases List.mem_cons.mp hmem with rfl | hmem
              · exact absurd hrest hbad
              · exact ⟨ne', hmem, hk', hrest⟩
            rcases ih _
              (fun n hn => hrefs n (List.mem_cons_of_mem ne hn)) hex'
              with ⟨pn, r, herr⟩
            refine ⟨pn, r, ?_⟩
            simp only [loadNets, hk, if_true]
            rw [hconns]
            exact herr

theorem read_error_of_nets (f : String) (nl : Netlist)
    (parts : List (String × PartInstance)) (warns : List String)
    (e : LoadError)
    (hc : loadComponents (catalogOf nl) f nl.components [] [] =
      .ok (parts, warns))
    (hn : loadNets parts f nl.nets [] = .error e) :
    read_kicad_netlist f nl = .error e := by
  show (match loadComponents (catalogOf nl) f nl.components [] [] with
      | Except.error e => (Except.error e :
          Except LoadError
            (List (String × PartInstance) × List NetInstance × List String))
      | Except.ok (p, w) =>
          match loadNets p f nl.nets [] with
          | Except.error e => Except.error e
          | Except.ok ns => Except.ok (p, ns, w)) = Except.error e
  rw [hc]
  dsimp only
  rw [hn]

/-- C5: when the components load, every net node's refdes resolves, and
some kept net entry has a node whose pin-number token is on no pin of its
resolved part, the load aborts with the pin-not-found `KeyError` (no
result mapping is returned). -/
theorem C5_pin_not_found (f : String) (nl : Netlist)
    (parts : List (String × PartInstance)) (warns : List String)
    (hcomp : loadComponents (catalogOf nl) f nl.components [] [] =
      .ok (parts, warns))
    (hrefs : ∀ ne ∈ nl.nets, keepNet ne = true →
      ∀ node ∈ ne.nodes, (dictFind node.ref parts).isSome)
    (hbad : ∃ ne ∈ nl.nets, keepNet ne = true ∧
      ∃ node ∈ ne.nodes, ∃ part, dictFind node.ref parts = some part ∧
        findPin node.pin part.pins = none) :
    ∃ pn r, read_kicad_netlist f nl = .error (.pinNotFound pn r) := by
  rcases loadNets_pin_error parts f nl.nets [] hrefs hbad with ⟨pn, r, herr⟩
  exact ⟨pn, r, read_error_of_nets f nl parts warns _ hcomp herr⟩

/-! ### Concrete witness data

Small netlists exercising the loader end to end. -/

def lpW : Libpart :=
  ⟨"Device", "R", "res", [("Reference", "R")],
   [⟨"1", "~", "passive"⟩, ⟨"2", "~", "passive"⟩]⟩

def lpW2 : Libpart :=
  ⟨"Device", "R", "res alt", [("Reference", "R")],
   [⟨"1", "~", "passive"⟩, ⟨"2", "~", "passive"⟩]⟩

def lpG : Libpart :=
  ⟨"IC", "Chip", "chip", [],
   [⟨"1", "VCC", "power_in"⟩, ⟨"2,3", "GND", "power_in"⟩]⟩

def cW1 : Component := ⟨"Device", "R", "R1", "1k", some "fp"⟩

def cW2 : Component := ⟨"Device", "R", "R1", "2k", none⟩

def cG : Component := ⟨"IC", "Chip", "U1", "Chip", some "fpU"⟩

def tW : PartTemplate := _read_kicad_netlist_partcls lpW

def tG : PartTemplate := _read_kicad_netlist_partcls lpG

/-- Duplicate refdes (`R1` twice), one-node `Net-` entry, two-node net. -/
def nlW : Netlist :=
  ⟨[lpW], [cW1, cW2],
   [⟨"Net-(R1-Pad2)", [⟨"R1", "2"⟩]⟩,
    ⟨"GND", [⟨"R1", "1"⟩, ⟨"R1", "2"⟩]⟩]⟩

def partsW : List (String × PartInstance) :=
  [("R1", instantiate tW cW2 "f.net")]

def netsW : List NetInstance :=
  [⟨"GND", [⟨"R1", 0, ["1"], ["P1"]⟩, ⟨"R1", 1, ["2"], ["P2"]⟩], "f.net"⟩]

def warnsW : List String := ["R1"]

/-- A filtered one-node `Net-` entry, a kept two-node `Net-` entry, and a
net whose gang pin (`2,3`) is listed through both physical numbers. -/
def nlV : Netlist :=
  ⟨[lpW, lpG], [cW1, cG],
   [⟨"Net-(U1-Pad1)", [⟨"U1", "1"⟩]⟩,
    ⟨"Net-(R1-Pad1)", [⟨"R1", "1"⟩, ⟨"U1", "1"⟩]⟩,
    ⟨"GND", [⟨"R1", "2"⟩, ⟨"U1", "2"⟩, ⟨"U1", "3"⟩]⟩]⟩

def partsV : List (String × PartInstance) :=
  [("R1", instantiate tW cW1 "f.net"), ("U1", instantiate tG cG "f.net")]

def netsV : List NetInstance :=
  [⟨"Net-(R1-Pad1)",
    [⟨"R1", 0, ["1"], ["P1"]⟩, ⟨"U1", 0, ["1"], ["VCC"]⟩], "f.net"⟩,
   ⟨"GND",
    [⟨"R1", 1, ["2"], ["P2"]⟩, ⟨"U1", 1, ["2", "3"], ["GND"]⟩], "f.net"⟩]

def warnsV : List String := []

/-- Two libpart entries both matching `(Device, R)`. -/
def nlX : Netlist := ⟨[lpW, lpW2], [cW1], []⟩

def partsX : List (String × PartInstance) :=
  [("R1", instantiate tW cW1 "f.net")]

/-- A net referencing pin number `7`, which `R1` does not have. -/
def nlP : Netlist :=
  ⟨[lpW], [cW1], [⟨"N", [⟨"R1", "7"⟩, ⟨"R1", "1"⟩]⟩]⟩

def partsP : List (String × PartInstance) :=
  [("R1", instantiate tW cW1 "f.net")]

/-! ### Witnesses -/

/-- C1 witness: `cW2` is the last `R1` component, `(Device, R)` matches
exactly `lpW`, the load succeeds, and the mapping holds the instance
built from `lpW`'s template. -/
theorem C1_template_resolution_witness :
    (nlW.components = [cW1] ++ cW2 :: []) ∧
    (nlW.libparts.filter (lpMatches cW2.lib cW2.part) = [lpW]) ∧
    (read_kicad_netlist "f.net" nlW = .ok (partsW, netsW, warnsW)) ∧
    dictFind cW2.ref partsW =
      some (instantiate (_read_kicad_netlist_partcls lpW) cW2 "f.net") := by
  refine ⟨rfl, rfl, rfl, ?_⟩
  exact (C1_template_resolution "f.net" nlW [cW1] cW2 [] rfl
    (fun c' h => absurd h (List.not_mem_nil c')) lpW rfl
    partsW netsW warnsW rfl).1

/-- C3 witness: the load of `nlV` keeps exactly the non-no-connect
entries, among them the two-node `Net-` entry. -/
theorem C3_no_connect_filter_witness :
    (read_kicad_netlist "f.net" nlV = .ok (partsV, netsV, warnsV)) ∧
    netsV.map (fun n => n.name) =
      (nlV.nets.filter keepNet).map (fun ne => ne.name) ∧
    netsV.map (fun n => n.name) = ["Net-(R1-Pad1)", "GND"] := by
  refine ⟨rfl, ?_, rfl⟩
  exact (C3_no_connect_filter "f.net" nlV partsV netsV warnsV rfl).1

/-- C4 witness: the gang pin `2,3` listed through both physical numbers
leaves each constructed net duplicate-free. -/
theorem C4_logical_pin_dedup_witness :
    (read_kicad_netlist "f.net" nlV = .ok (partsV, netsV, warnsV)) ∧
    ∀ n ∈ netsV, n.connections.Nodup := by
  exact ⟨rfl, C4_logical_pin_dedup "f.net" nlV partsV netsV warnsV rfl⟩

/-- C5 witness: `nlP`'s net references pin `7` on `R1`; the load fails
with the pin-not-found error. -/
theorem C5_pin_not_found_witness :
    (loadComponents (catalogOf nlP) "f.net" nlP.components [] [] =
      .ok (partsP, [])) ∧
    ∃ pn r, read_kicad_netlist "f.net" nlP =
      .error (.pinNotFound pn r) := by
  refine ⟨rfl, ?_⟩
  refine C5_pin_not_found "f.net" nlP partsP [] rfl (by decide) ?_
  exact ⟨⟨"N", [⟨"R1", "7"⟩, ⟨"R1", "1"⟩]⟩, List.mem_cons_self _ _, rfl,
    ⟨"R1", "7"⟩, List.mem_cons_self _ _,
    instantiate tW cW1 "f.net", rfl, rfl⟩

/-- C8 witness: `cW2` has no footprint; the load of `nlW` still succeeds,
warns on `R1`, and leaves the template default package. -/
theorem C8_missing_footprint_witness :
    (cW2.footprint = none) ∧
    (read_kicad_netlist "f.net" nlW = .ok (partsW, netsW, warnsW)) ∧
    cW2.ref ∈ warnsW ∧
    dictFind cW2.ref partsW = some (instantiate tW cW2 "f.net") ∧
    (instantiate tW cW2 "f.net").package = tW.package := by
  refine ⟨rfl, rfl, ?_⟩
  exact C8_missing_footprint "f.net" nlW [cW1] cW2 [] rfl
    (fun c' h => absurd h (List.not_mem_nil c')) rfl tW rfl
    partsW netsW warnsW rfl

/-- C9 witness: `nlW` holds `R1` twice; the load succeeds and the
mapping holds the instance built from the later entry `cW2`. -/
theorem C9_last_write_wins_witness :
    (nlW.components = [] ++ cW1 :: ([] ++ cW2 :: [])) ∧
    (cW1.ref = cW2.ref) ∧
    (read_kicad_netlist "f.net" nlW = .ok (partsW, netsW, warnsW)) ∧
    dictFind cW2.ref partsW = some (instantiate tW cW2 "f.net") := by
  refine ⟨rfl, rfl, rfl, ?_⟩
  exact (C9_last_write_wins "f.net" nlW [] cW1 [] cW2 [] rfl rfl
    (fun c' h => absurd h (List.not_mem_nil c')) tW rfl
    partsW netsW warnsW rfl).1

/-- C10 witness: both `lpW` and `lpW2` match `(Device, R)`; the load of
`nlX` succeeds and uses `lpW`, the first in file order. -/
theorem C10_first_match_wins_witness :
    (nlX.libparts.filter (lpMatches cW1.lib cW1.part) = [lpW, lpW2]) ∧
    (read_kicad_netlist "f.net" nlX = .ok (partsX, [], [])) ∧
    findTemplate cW1.lib cW1.part (catalogOf nlX) =
      some (_read_kicad_netlist_partcls lpW) ∧
    dictFind cW1.ref partsX =
      some (instantiate (_read_kicad_netlist_partcls lpW) cW1 "f.net") := by
  refine ⟨rfl, rfl, ?_⟩
  exact C10_first_match_wins "f.net" nlX [] cW1 [] rfl
    (fun c' h => absurd h (List.not_mem_nil c')) lpW [lpW2] rfl
    (List.cons_ne_nil lpW2 []) partsX [] [] rfl

end Pcbdl
